import Mathlib

/-!
# farmosUtil.js: a shallow embedding

The module `src/util/farmosUtil.js` is a thin data-access layer over the
farmOS.js client.  The embedding below follows the source function by
function.

* Asynchronous functions are modelled by explicit state passing: the state
  is the list of requests issued so far on the farm handle, and an
  `await` that rejects is an `Except.error` that propagates.
* The farm handle's `fetch` is the transport: it is a field of `Farm`, and
  its answer may depend on the requests issued before.
* `String.prototype.localeCompare` is a parameter `localeCompare`; where a
  theorem needs it, the comparator is assumed consistent in the sense of
  ECMAScript (`ConsistentComparator`).
* `Array.prototype.sort` is a stable sort (ECMAScript 2019), modelled by
  an insertion sort that places an element before the first element it
  does not compare greater than.
* `Map` is an insertion-ordered association list with `set` replacing the
  value of a key already present.
-/

namespace FarmosUtil

/-! ## Built-ins: `Array.prototype.sort` and `Map` -/

/-- Insert `x` into `ys` in front of the first `y` with `compareFn x y ≤ 0`. -/
def insertOrdered {α : Type} (compareFn : α → α → Int) (x : α) : List α → List α
  | [] => [x]
  | y :: ys =>
    if compareFn x y ≤ 0 then x :: y :: ys else y :: insertOrdered compareFn x ys

/-- Model of `Array.prototype.sort(compareFn)`: a stable sort. -/
def arraySort {α : Type} (compareFn : α → α → Int) : List α → List α
  | [] => []
  | x :: xs => insertOrdered compareFn x (arraySort compareFn xs)

/-- A comparator that is consistent: the sign of `cmp a b` is opposite to the
sign of `cmp b a`, and `cmp · · ≤ 0` is transitive. -/
structure ConsistentComparator (cmp : String → String → Int) : Prop where
  antisymm : ∀ a b, cmp a b < 0 ↔ 0 < cmp b a
  trans : ∀ a b c, cmp a b ≤ 0 → cmp b c ≤ 0 → cmp a c ≤ 0

/-- A JavaScript `Map` with string keys: entries in insertion order. -/
abbrev JsMap (ν : Type) := List (String × ν)

/-- Model of `Map.prototype.set`: an existing key keeps its position and takes
the new value, a new key is appended. -/
def JsMap.set {ν : Type} : JsMap ν → String → ν → JsMap ν
  | [], k, v => [(k, v)]
  | (k0, v0) :: rest, k, v =>
    if k0 = k then (k0, v) :: rest else (k0, v0) :: JsMap.set rest k v

/-- Model of `new Map(iterable)`: `set` each pair in turn, starting empty. -/
def JsMap.ofPairs {ν : Type} (pairs : List (String × ν)) : JsMap ν :=
  pairs.foldl (fun m p => JsMap.set m p.1 p.2) []

/-- Model of `Map.prototype.get` (`none` for `undefined`). -/
def JsMap.get {ν : Type} : JsMap ν → String → Option ν
  | [], _ => none
  | (k0, v0) :: rest, k => if k0 = k then some v0 else JsMap.get rest k

/-- Model of `Map.prototype.size`. -/
def JsMap.size {ν : Type} (m : JsMap ν) : Nat := m.length

/-- The keys of a map, in insertion order. -/
def JsMap.keys {ν : Type} (m : JsMap ν) : List String := m.map Prod.fst

/-! ## Resources and the farm handle -/

/-- The attributes of a `user--user` resource that the module reads. -/
structure UserAttributes where
  name : String
  display_name : String
deriving DecidableEq, Repr

/-- A `user--user` resource. -/
structure User where
  id : String
  type : String
  attributes : UserAttributes
deriving DecidableEq, Repr

/-- The attributes of an asset resource that the module reads or filters on. -/
structure AssetAttributes where
  name : String
  status : String
  land_type : Option String
  structure_type : Option String
deriving DecidableEq, Repr

/-- An `asset--land` or `asset--structure` resource. -/
structure Asset where
  id : String
  type : String
  attributes : AssetAttributes
deriving DecidableEq, Repr

/-- A value of a filter entry: a string or a boolean. -/
inductive FilterValue where
  | str (s : String)
  | bool (b : Bool)
deriving DecidableEq, Repr

/-- The `limit` of a query. -/
inductive Limit where
  | Infinity
  | finite (n : Nat)
deriving DecidableEq, Repr

/-- The argument of `fetch`: `{ filter: {...}, limit }`. -/
structure Query where
  filter : List (String × FilterValue)
  limit : Limit
deriving DecidableEq, Repr

/-- A request issued on the farm handle. -/
inductive Request where
  | userFetch (q : Query)
  | assetFetch (q : Query)
deriving DecidableEq, Repr

/-- The value a successful `fetch` resolves to: `{ data: [...] }`. -/
structure Response (ρ : Type) where
  data : List ρ

/-- One entity of the farm handle (`farm.user`, `farm.asset`): `fetch` answers
a query, given the requests issued before it, with an error or a response. -/
structure Entity (ε ρ : Type) where
  fetch : List Request → Query → Except ε (Response ρ)

/-- The farm handle returned by `getFarmOSInstance`, as the fetchers use it. -/
structure Farm (ε : Type) where
  user : Entity ε User
  asset : Entity ε Asset

/-- The result of an asynchronous function: the value or the error it settles
with, and the requests issued so far. -/
abbrev Async (ε α : Type) := Except ε α × List Request

/-! ## Collection fetchers -/

/-- The query of `getUsers`. -/
def usersQuery : Query :=
  { filter := [("type", .str "user--user"), ("status", .bool true)], limit := .Infinity }

/-- The first query of `getFieldsAndBeds`. -/
def bedsQuery : Query :=
  { filter := [("type", .str "asset--land"), ("land_type", .str "bed"),
      ("status", .str "active")],
    limit := .Infinity }

/-- The second query of `getFieldsAndBeds`. -/
def fieldsQuery : Query :=
  { filter := [("type", .str "asset--land"), ("land_type", .str "field"),
      ("status", .str "active")],
    limit := .Infinity }

/-- The query of `getGreenhouses`. -/
def greenhousesQuery : Query :=
  { filter := [("type", .str "asset--structure"), ("structure_type", .str "greenhouse"),
      ("status", .str "active")],
    limit := .Infinity }

/-- The comparator `(o1, o2) => o1.attributes.display_name.localeCompare(...)`. -/
def byDisplayName (localeCompare : String → String → Int) (o1 o2 : User) : Int :=
  localeCompare o1.attributes.display_name o2.attributes.display_name

/-- The comparator `(o1, o2) => o1.attributes.name.localeCompare(...)`. -/
def byName (localeCompare : String → String → Int) (o1 o2 : Asset) : Int :=
  localeCompare o1.attributes.name o2.attributes.name

/-- Embedding of `getUsers(farm)`. -/
def getUsers {ε : Type} (localeCompare : String → String → Int) (farm : Farm ε)
    (log : List Request) : Async ε (List User) :=
  match farm.user.fetch log usersQuery with
  | .error e => (.error e, log ++ [.userFetch usersQuery])
  | .ok users =>
    (.ok (arraySort (byDisplayName localeCompare) users.data), log ++ [.userFetch usersQuery])

/-- Embedding of `getUsernameToUserMap(farm)`. -/
def getUsernameToUserMap {ε : Type} (localeCompare : String → String → Int) (farm : Farm ε)
    (log : List Request) : Async ε (JsMap User) :=
  match getUsers localeCompare farm log with
  | (.error e, log1) => (.error e, log1)
  | (.ok users, log1) =>
    (.ok (JsMap.ofPairs (users.map fun user => (user.attributes.display_name, user))), log1)

/-- Embedding of `getUserIdToUserMap(farm)`. -/
def getUserIdToUserMap {ε : Type} (localeCompare : String → String → Int) (farm : Farm ε)
    (log : List Request) : Async ε (JsMap User) :=
  match getUsers localeCompare farm log with
  | (.error e, log1) => (.error e, log1)
  | (.ok users, log1) => (.ok (JsMap.ofPairs (users.map fun user => (user.id, user))), log1)

/-- Embedding of `getFieldsAndBeds(farm)`: the beds are queried first, then the
fields; the result is `fields.data.concat(beds.data)`, sorted by name. -/
def getFieldsAndBeds {ε : Type} (localeCompare : String → String → Int) (farm : Farm ε)
    (log : List Request) : Async ε (List Asset) :=
  match farm.asset.fetch log bedsQuery with
  | .error e => (.error e, log ++ [.assetFetch bedsQuery])
  | .ok beds =>
    match farm.asset.fetch (log ++ [.assetFetch bedsQuery]) fieldsQuery with
    | .error e => (.error e, log ++ [.assetFetch bedsQuery] ++ [.assetFetch fieldsQuery])
    | .ok fields =>
      (.ok (arraySort (byName localeCompare) (fields.data ++ beds.data)),
        log ++ [.assetFetch bedsQuery] ++ [.assetFetch fieldsQuery])

/-- Embedding of `getFieldOrBedNameToAssetMap(farm)`. -/
def getFieldOrBedNameToAssetMap {ε : Type} (localeCompare : String → String → Int)
    (farm : Farm ε) (log : List Request) : Async ε (JsMap Asset) :=
  match getFieldsAndBeds localeCompare farm log with
  | (.error e, log1) => (.error e, log1)
  | (.ok fieldsAndBeds, log1) =>
    (.ok (JsMap.ofPairs (fieldsAndBeds.map fun land => (land.attributes.name, land))), log1)

/-- Embedding of `getFieldOrBedIdToAssetMap(farm)`. -/
def getFieldOrBedIdToAssetMap {ε : Type} (localeCompare : String → String → Int)
    (farm : Farm ε) (log : List Request) : Async ε (JsMap Asset) :=
  match getFieldsAndBeds localeCompare farm log with
  | (.error e, log1) => (.error e, log1)
  | (.ok fieldsAndBeds, log1) =>
    (.ok (JsMap.ofPairs (fieldsAndBeds.map fun land => (land.id, land))), log1)

/-- Embedding of `getGreenhouses(farm)`. -/
def getGreenhouses {ε : Type} (localeCompare : String → String → Int) (farm : Farm ε)
    (log : List Request) : Async ε (List Asset) :=
  match farm.asset.fetch log greenhousesQuery with
  | .error e => (.error e, log ++ [.assetFetch greenhousesQuery])
  | .ok greenhouses =>
    (.ok (arraySort (byName localeCompare) greenhouses.data),
      log ++ [.assetFetch greenhousesQuery])

/-- Embedding of `getGreenhouseNameToAssetMap(farm)`. -/
def getGreenhouseNameToAssetMap {ε : Type} (localeCompare : String → String → Int)
    (farm : Farm ε) (log : List Request) : Async ε (JsMap Asset) :=
  match getGreenhouses localeCompare farm log with
  | (.error e, log1) => (.error e, log1)
  | (.ok greenhouses, log1) =>
    (.ok (JsMap.ofPairs (greenhouses.map fun gh => (gh.attributes.name, gh))), log1)

/-- Embedding of `getGreenhouseIdToAssetMap(farm)`. -/
def getGreenhouseIdToAssetMap {ε : Type} (localeCompare : String → String → Int)
    (farm : Farm ε) (log : List Request) : Async ε (JsMap Asset) :=
  match getGreenhouses localeCompare farm log with
  | (.error e, log1) => (.error e, log1)
  | (.ok greenhouses, log1) => (.ok (JsMap.ofPairs (greenhouses.map fun gh => (gh.id, gh))), log1)

/-! ## Relationship helpers -/

/-- A JavaScript value, as far as the relationship helpers can tell values
apart.  Objects are property lists in insertion order. -/
inductive JsVal where
  | undefined
  | null
  | bool (b : Bool)
  | num (n : Int)
  | str (s : String)
  | arr (items : List JsVal)
  | obj (props : List (String × JsVal))

/-- The errors the relationship helpers can throw. -/
inductive JsError where
  | ReferenceError (message : String)
  | TypeError (message : String)
deriving DecidableEq, Repr

/-- Whether a value is `null` or `undefined`. -/
def JsVal.isNullish : JsVal → Bool
  | .undefined => true
  | .null => true
  | _ => false

/-- The value of `ToBoolean`. -/
def JsVal.truthy : JsVal → Bool
  | .undefined => false
  | .null => false
  | .bool b => b
  | .num n => n != 0
  | .str s => s != ""
  | .arr _ => true
  | .obj _ => true

/-- The first binding of `key` in a property list. -/
def lookupProp : List (String × JsVal) → String → Option JsVal
  | [], _ => none
  | (k, v) :: rest, key => if k = key then some v else lookupProp rest key

/-- Replace the value of the first binding of `key` in a property list. -/
def assignProp : List (String × JsVal) → String → JsVal → List (String × JsVal)
  | [], key, val => [(key, val)]
  | (k, v) :: rest, key, val =>
    if k = key then (k, val) :: rest else (k, v) :: assignProp rest key val

/-- Property read `v.key` on a value that is not nullish, for a key that is
neither an index nor a property of a built-in prototype (`relationships`,
`owner`, `parent`): an own property of an object, `undefined` otherwise. -/
def JsVal.getProp : JsVal → String → JsVal
  | .obj props, key => (lookupProp props key).getD .undefined
  | _, _ => .undefined

/-- The expression `obj?.relationships.<relation>`: `undefined` when `obj` is
nullish; a `TypeError` when `obj.relationships` is nullish, as the second
property read is not optional. -/
def relationshipOf (obj : JsVal) (relation : String) : Except JsError JsVal :=
  if obj.isNullish then .ok .undefined
  else
    let relationships := obj.getProp "relationships"
    if relationships.isNullish then
      .error (.TypeError ("Cannot read properties of " ++
        (match relationships with | .null => "null" | _ => "undefined") ++
        " (reading " ++ relation ++ ")"))
    else .ok (relationships.getProp relation)

/-- The statement `obj.relationships.<relation>.push(ref); return obj` where
`obj.relationships.<relation>` is truthy: the array grows by `ref` at its
end; a truthy value that is not an array has no `push` method. -/
def pushRelationship (obj : JsVal) (relation : String) (ref : JsVal) : Except JsError JsVal :=
  match obj with
  | .obj props =>
    match lookupProp props "relationships" with
    | some (.obj rprops) =>
      match lookupProp rprops relation with
      | some (.arr items) =>
        .ok (.obj (assignProp props "relationships"
          (.obj (assignProp rprops relation (.arr (items ++ [ref]))))))
      | _ => .error (.TypeError ("obj.relationships." ++ relation ++ ".push is not a function"))
    | _ => .error (.TypeError ("obj.relationships." ++ relation ++ ".push is not a function"))
  | _ => .error (.TypeError ("obj.relationships." ++ relation ++ ".push is not a function"))

/-- Embedding of `addOwnerRelationship(obj, ownerId)`. -/
def addOwnerRelationship (obj ownerId : JsVal) : Except JsError JsVal :=
  match relationshipOf obj "owner" with
  | .error e => .error e
  | .ok owner =>
    if !owner.truthy then
      .error (.ReferenceError "The obj parameter does not have a relationships.owner property")
    else
      pushRelationship obj "owner" (.obj [("type", .str "user--user"), ("id", ownerId)])

/-- Embedding of `addParentRelationship(obj, parentId, parentType)`. -/
def addParentRelationship (obj parentId parentType : JsVal) : Except JsError JsVal :=
  match relationshipOf obj "parent" with
  | .error e => .error e
  | .ok parent =>
    if !parent.truthy then
      .error (.ReferenceError "The obj parameter does not have a relationships.parent property")
    else
      pushRelationship obj "parent" (.obj [("type", parentType), ("id", parentId)])

/-! ## Token store and connection factory -/

/-- A `Storage` object (`localStorage`, or a `node-localstorage` instance):
its items, by key. -/
abbrev Storage := List (String × String)

/-- Model of `Storage.getItem` (`none` for `null`). -/
def Storage.getItem : Storage → String → Option String
  | [], _ => none
  | (k, v) :: rest, key => if k = key then some v else Storage.getItem rest key

/-- Model of `Storage.setItem`. -/
def Storage.setItem : Storage → String → String → Storage
  | [], key, val => [(key, val)]
  | (k, v) :: rest, key, val =>
    if k = key then (k, val) :: rest else (k, v) :: Storage.setItem rest key val

/-- The execution context: the global `localStorage` when the context has
one (a browser), and the store that `new LocalStorage(rootDir + "/scratch")`
opens (node.js). -/
structure Env where
  localStorage : Option Storage
  scratch : Storage

/-- The storage object `getLocalStorage()` returns. -/
inductive StorageRef where
  | ambient
  | scratchDir
deriving DecidableEq, Repr

/-- Embedding of `getLocalStorage()`: reading the global `localStorage` throws
when it is not defined, and then the file-backed store is used. -/
def getLocalStorage (env : Env) : StorageRef :=
  match env.localStorage with
  | none => .scratchDir
  | some _ => .ambient

/-- The items of the storage object `getLocalStorage()` returns. -/
def Env.store (env : Env) : Storage :=
  match getLocalStorage env with
  | .ambient => env.localStorage.getD []
  | .scratchDir => env.scratch

/-- Write to the storage object `getLocalStorage()` returns. -/
def Env.setItem (env : Env) (key val : String) : Env :=
  match getLocalStorage env with
  | .ambient => { env with localStorage := some ((env.localStorage.getD []).setItem key val) }
  | .scratchDir => { env with scratch := env.scratch.setItem key val }

/-- The built-ins `JSON.parse` and `JSON.stringify` on tokens of type `τ`;
`none` is the value `null`.  `parse` fails on text that is not JSON. -/
structure Json (ε τ : Type) where
  parse : String → Except ε (Option τ)
  stringify : Option τ → String

/-- The accessor `getToken` of the configuration:
`JSON.parse(getLocalStorage().getItem("token"))`.  A missing item is `null`,
which `JSON.parse` reads as the text `null`. -/
def getToken {ε τ : Type} (json : Json ε τ) (env : Env) : Except ε (Option τ) :=
  json.parse ((env.store.getItem "token").getD "null")

/-- The accessor `setToken` of the configuration:
`getLocalStorage().setItem("token", JSON.stringify(token))`. -/
def setToken {ε τ : Type} (json : Json ε τ) (token : Option τ) (env : Env) : Env :=
  env.setItem "token" (json.stringify token)

/-- The `remote` configuration passed to the farmOS.js factory. -/
structure Config where
  host : String
  clientId : String
deriving DecidableEq, Repr

/-- What the farmOS.js client does when asked, given the configuration:
`remote.authorize(user, pass)` and `schema.fetch()` settle with an error or a
value and may write the token store through `setToken`. -/
structure Client (ε σ : Type) where
  authorize : Config → String → String → Env → Except ε Unit × Env
  schemaFetch : Config → Env → Except ε σ × Env

/-- A call made on the farm object by `getFarmOSInstance`. -/
inductive RemoteCall (σ : Type) where
  | authorize (user pass : String)
  | schemaFetch
  | schemaSet (schemata : σ)

/-- The state `getFarmOSInstance` runs in: the execution context and the calls
made on farm objects so far. -/
structure World (σ : Type) where
  env : Env
  calls : List (RemoteCall σ)

/-- The farm object `getFarmOSInstance` returns: its configuration and the
schema set on it. -/
structure FarmInstance (σ : Type) where
  config : Config
  schema : Option σ

/-- Whether a call is an authorization request. -/
def RemoteCall.isAuthorize {σ : Type} : RemoteCall σ → Bool
  | .authorize _ _ => true
  | _ => false

/-- Whether a call fetches the schema. -/
def RemoteCall.isSchemaFetch {σ : Type} : RemoteCall σ → Bool
  | .schemaFetch => true
  | _ => false

/-- Embedding of `getFarmOSInstance(hostURL, client, user, pass)`.  Both
branches on `typeof farmOS` call the same factory with the same options;
`farm.remote.getToken` is the accessor of the configuration. -/
def getFarmOSInstance {ε τ σ : Type} (json : Json ε τ) (lib : Client ε σ)
    (hostURL client user pass : String) (w : World σ) :
    Except ε (FarmInstance σ) × World σ :=
  let config : Config := { host := hostURL, clientId := client }
  match getToken json w.env with
  | .error e => (.error e, w)
  | .ok token =>
    let authorized : Except ε Unit × World σ :=
      match token with
      | none =>
        let r := lib.authorize config user pass w.env
        (r.1, { env := r.2, calls := w.calls ++ [.authorize user pass] })
      | some _ => (.ok (), w)
    match authorized with
    | (.error e, w1) => (.error e, w1)
    | (.ok _, w1) =>
      match lib.schemaFetch config w1.env with
      | (.error e, env2) => (.error e, { env := env2, calls := w1.calls ++ [.schemaFetch] })
      | (.ok schemata, env2) =>
        (.ok { config := config, schema := some schemata },
          { env := env2, calls := w1.calls ++ [.schemaFetch, .schemaSet schemata] })

/-- The authorization requests among a list of calls. -/
def authorizeCount {σ : Type} (calls : List (RemoteCall σ)) : Nat :=
  calls.countP RemoteCall.isAuthorize

/-- The schema fetches among a list of calls. -/
def schemaFetchCount {σ : Type} (calls : List (RemoteCall σ)) : Nat :=
  calls.countP RemoteCall.isSchemaFetch

/-! ## Properties of lookup maps -/

/-- The map `m` is last-write-wins over the array `arr` under `key`: every key
of a record has exactly one entry, the entry of a key is the last record of
`arr` with that key (and there is no entry when no record has it), and the
size is the number of distinct keys. -/
def LastWriteWins {ρ : Type} (key : ρ → String) (arr : List ρ) (m : JsMap ρ) : Prop :=
  (∀ r ∈ arr, m.keys.count (key r) = 1) ∧
  (∀ k, m.get k = (arr.filter (fun r => key r = k)).getLast?) ∧
  m.size = (arr.map key).dedup.length

/-! ## Concrete data used to exercise the definitions -/

/-- Compare two character lists by code point, lexicographically. -/
def compareChars : List Char → List Char → Int
  | [], [] => 0
  | [], _ :: _ => -1
  | _ :: _, [] => 1
  | a :: as, b :: bs =>
    if a.toNat < b.toNat then -1 else if b.toNat < a.toNat then 1 else compareChars as bs

/-- A concrete consistent comparator on strings: code point order. -/
def codeUnitCompare (a b : String) : Int := compareChars a.toList b.toList

/-- A user with the given id and display name. -/
def mkUser (id displayName : String) : User :=
  { id := id
    type := "user--user"
    attributes := { name := displayName, display_name := displayName } }

/-- A land asset with the given id, name and land type. -/
def mkLand (id name landType : String) : Asset :=
  { id := id
    type := "asset--land"
    attributes :=
      { name := name
        status := "active"
        land_type := some landType
        structure_type := none } }

/-- A greenhouse with the given id and name. -/
def mkGreenhouse (id name : String) : Asset :=
  { id := id
    type := "asset--structure"
    attributes :=
      { name := name
        status := "active"
        land_type := none
        structure_type := some "greenhouse" } }

/-- A farm that answers each query of the module from fixed tables. -/
def tableFarm (users : List User) (beds fields greenhouses : List Asset) : Farm String where
  user := { fetch := fun _ q => if q = usersQuery then .ok { data := users } else .ok { data := [] } }
  asset :=
    { fetch := fun _ q =>
        if q = bedsQuery then .ok { data := beds }
        else if q = fieldsQuery then .ok { data := fields }
        else if q = greenhousesQuery then .ok { data := greenhouses }
        else .ok { data := [] } }

/-- A small farm: three users, one bed, one field, two greenhouses. -/
def sampleFarm : Farm String :=
  tableFarm [mkUser "u3" "manager1", mkUser "u1" "admin", mkUser "u2" "guest"]
    [mkLand "b1" "Bed A" "bed"] [mkLand "f1" "Field A" "field"]
    [mkGreenhouse "g2" "Jasmine", mkGreenhouse "g1" "Chuau"]

/-- A farm where two users share a display name and a bed shares its name
with a field. -/
def duplicateFarm : Farm String :=
  tableFarm [mkUser "u1" "sam", mkUser "u2" "sam"]
    [mkLand "b1" "A" "bed"] [mkLand "f1" "A" "field"]
    [mkGreenhouse "g1" "G", mkGreenhouse "g2" "G"]

/-- A farm with no records at all. -/
def emptyFarm : Farm String := tableFarm [] [] [] []

/-- A farm whose transport fails on every request. -/
def offlineFarm : Farm String where
  user := { fetch := fun _ _ => .error "network down" }
  asset := { fetch := fun _ _ => .error "network down" }

/-- A farm whose transport answers the first request and fails afterwards. -/
def flakyFarm : Farm String where
  user := { fetch := fun log _ => if log = [] then .ok { data := [] } else .error "network down" }
  asset := { fetch := fun log _ => if log = [] then .ok { data := [] } else .error "network down" }

/-- A toy JSON codec on string tokens: the text `null` is `null`, any other
text is a token. -/
def textJson : Json String String where
  parse := fun s => if s = "null" then .ok none else .ok (some s)
  stringify := fun t => t.getD "null"

/-- A client whose authorization succeeds and stores the token `t0k3n`
through `setToken`, and whose schema fetch answers `schema-v2`. -/
def grantingClient : Client String String where
  authorize := fun _ _ _ env => (.ok (), setToken textJson (some "t0k3n") env)
  schemaFetch := fun _ env => (.ok "schema-v2", env)

/-- A browser context with an empty `localStorage` and no call made yet. -/
def freshWorld : World String :=
  { env := { localStorage := some [], scratch := [] }, calls := [] }

/-- An object `{ id, relationships: { owner: [], parent: [] } }`. -/
def sampleLog : JsVal :=
  .obj [("id", .str "log-1"),
    ("relationships", .obj [("owner", .arr []), ("parent", .arr [])])]

/-! ## Lemmas on the sort -/

section SortLemmas

variable {α : Type} (cmp : α → α → Int)

theorem insertOrdered_eq_orderedInsert (x : α) (l : List α) :
    insertOrdered cmp x l = List.orderedInsert (fun a b => cmp a b ≤ 0) x l := by
  induction l with
  | nil => rfl
  | cons y ys ih => simp only [insertOrdered, List.orderedInsert, ih]

theorem arraySort_eq_insertionSort (l : List α) :
    arraySort cmp l = List.insertionSort (fun a b => cmp a b ≤ 0) l := by
  induction l with
  | nil => rfl
  | cons x xs ih =>
    simp only [arraySort, List.insertionSort, ih, insertOrdered_eq_orderedInsert]

theorem arraySort_perm (l : List α) : (arraySort cmp l).Perm l := by
  rw [arraySort_eq_insertionSort]
  exact List.perm_insertionSort _ l

theorem mem_arraySort {l : List α} {x : α} : x ∈ arraySort cmp l ↔ x ∈ l :=
  (arraySort_perm cmp l).mem_iff

theorem arraySort_nil : arraySort cmp ([] : List α) = [] := rfl

theorem arraySort_pairwise (htot : ∀ a b, cmp a b ≤ 0 ∨ cmp b a ≤ 0)
    (htrans : ∀ a b c, cmp a b ≤ 0 → cmp b c ≤ 0 → cmp a c ≤ 0) (l : List α) :
    (arraySort cmp l).Pairwise (fun a b => cmp a b ≤ 0) := by
  rw [arraySort_eq_insertionSort]
  haveI : IsTotal α (fun a b => cmp a b ≤ 0) := ⟨htot⟩
  haveI : IsTrans α (fun a b => cmp a b ≤ 0) := ⟨htrans⟩
  exact List.sorted_insertionSort (fun a b => cmp a b ≤ 0) l

theorem arraySort_of_pairwise {l : List α} (h : l.Pairwise (fun a b => cmp a b ≤ 0)) :
    arraySort cmp l = l := by
  rw [arraySort_eq_insertionSort]
  exact List.Sorted.insertionSort_eq h

theorem arraySort_idem (htot : ∀ a b, cmp a b ≤ 0 ∨ cmp b a ≤ 0)
    (htrans : ∀ a b c, cmp a b ≤ 0 → cmp b c ≤ 0 → cmp a c ≤ 0) (l : List α) :
    arraySort cmp (arraySort cmp l) = arraySort cmp l :=
  arraySort_of_pairwise cmp (arraySort_pairwise cmp htot htrans l)

theorem pair_sublist_arraySort {a b : α} {l : List α} (hab : cmp a b ≤ 0)
    (h : List.Sublist [a, b] l) : List.Sublist [a, b] (arraySort cmp l) := by
  rw [arraySort_eq_insertionSort]
  exact List.pair_sublist_insertionSort hab h

theorem filter_insertOrdered (p : α → Bool) (x : α) (l : List α)
    (h : ∀ y ∈ l, p x = true → p y = true → cmp x y ≤ 0) :
    (insertOrdered cmp x l).filter p = (x :: l).filter p := by
  induction l with
  | nil => rfl
  | cons y ys ih =>
    by_cases hxy : cmp x y ≤ 0
    · simp only [insertOrdered, if_pos hxy]
    · have ih1 := ih (fun z hz => h z (List.mem_cons_of_mem _ hz))
      have hnot : ¬ (p x = true ∧ p y = true) := fun hp =>
        hxy (h y (List.mem_cons_self _ _) hp.1 hp.2)
      simp only [insertOrdered, if_neg hxy, List.filter_cons, ih1]
      cases hpx : p x <;> cases hpy : p y <;> simp_all

theorem filter_arraySort (p : α → Bool) (l : List α)
    (h : ∀ x ∈ l, ∀ y ∈ l, p x = true → p y = true → cmp x y ≤ 0) :
    (arraySort cmp l).filter p = l.filter p := by
  induction l with
  | nil => rfl
  | cons x xs ih =>
    have ih1 := ih (fun a ha b hb => h a (List.mem_cons_of_mem _ ha) b (List.mem_cons_of_mem _ hb))
    simp only [arraySort]
    rw [filter_insertOrdered cmp p x (arraySort cmp xs)
      (fun y hy => h x (List.mem_cons_self _ _) y
        (List.mem_cons_of_mem _ ((mem_arraySort cmp).1 hy)))]
    simp only [List.filter_cons, ih1]

end SortLemmas

section ComparatorLemmas

variable {lc : String → String → Int}

theorem ConsistentComparator.total (hc : ConsistentComparator lc) (a b : String) :
    lc a b ≤ 0 ∨ lc b a ≤ 0 := by
  by_cases h : lc a b ≤ 0
  · exact Or.inl h
  · have h1 : 0 < lc a b := by omega
    have h2 := (hc.antisymm b a).2 h1
    exact Or.inr (by omega)

theorem ConsistentComparator.symm_of_eq (hc : ConsistentComparator lc) {a b : String}
    (h : lc a b = 0) : lc b a ≤ 0 := by
  by_contra hn
  have h1 : 0 < lc b a := by omega
  have h2 := (hc.antisymm a b).2 h1
  omega

theorem ConsistentComparator.class_le (hc : ConsistentComparator lc) {k a b : String}
    (ha : lc k a = 0) (hb : lc k b = 0) : lc a b ≤ 0 :=
  hc.trans a k b (hc.symm_of_eq ha) (by omega)

theorem compareChars_antisymm : ∀ a b, compareChars a b < 0 ↔ 0 < compareChars b a
  | [], [] => by simp [compareChars]
  | [], _ :: _ => by simp [compareChars]
  | _ :: _, [] => by simp [compareChars]
  | a :: as, b :: bs => by
    have ih := compareChars_antisymm as bs
    simp only [compareChars]
    split_ifs <;> omega

theorem compareChars_trans :
    ∀ a b c, compareChars a b ≤ 0 → compareChars b c ≤ 0 → compareChars a c ≤ 0
  | [], [], [] => by simp [compareChars]
  | [], [], _ :: _ => by simp [compareChars]
  | [], _ :: _, [] => by simp [compareChars]
  | [], _ :: _, _ :: _ => by simp [compareChars]
  | _ :: _, [], _ => by simp [compareChars]
  | _ :: _, _ :: _, [] => by simp [compareChars]
  | a :: as, b :: bs, c :: cs => by
    have ih := compareChars_trans as bs cs
    simp only [compareChars]
    split_ifs <;> omega

theorem codeUnitCompare_consistent : ConsistentComparator codeUnitCompare :=
  ⟨fun a b => compareChars_antisymm a.toList b.toList,
   fun a b c => compareChars_trans a.toList b.toList c.toList⟩

end ComparatorLemmas

/-! ## Lemmas on maps -/

section MapLemmas

variable {ν : Type}

theorem JsMap.get_set (m : JsMap ν) (k : String) (v : ν) (k1 : String) :
    JsMap.get (JsMap.set m k v) k1 = if k = k1 then some v else JsMap.get m k1 := by
  induction m with
  | nil => simp [JsMap.set, JsMap.get]
  | cons e rest ih =>
    obtain ⟨k0, v0⟩ := e
    by_cases h0 : k0 = k
    · subst h0
      simp only [JsMap.set, if_true, JsMap.get]
      split_ifs <;> rfl
    · simp only [JsMap.set, if_neg h0, JsMap.get, ih]
      by_cases h1 : k0 = k1
      · have h2 : ¬ k = k1 := fun h => h0 (h1.trans h.symm)
        simp [h1, h2]
      · simp [h1]

theorem JsMap.mem_keys_set (m : JsMap ν) (k : String) (v : ν) (k1 : String) :
    k1 ∈ JsMap.keys (JsMap.set m k v) ↔ k1 = k ∨ k1 ∈ JsMap.keys m := by
  induction m with
  | nil => simp [JsMap.set, JsMap.keys]
  | cons e rest ih =>
    obtain ⟨k0, v0⟩ := e
    have ih1 : k1 ∈ List.map Prod.fst (JsMap.set rest k v) ↔
        k1 = k ∨ k1 ∈ List.map Prod.fst rest := ih
    by_cases h0 : k0 = k
    · subst h0
      simp only [JsMap.set, if_true, JsMap.keys, List.map_cons, List.mem_cons]
      tauto
    · simp only [JsMap.set, if_neg h0, JsMap.keys, List.map_cons, List.mem_cons, ih1]
      tauto

theorem JsMap.nodup_keys_set (m : JsMap ν) (k : String) (v : ν)
    (h : (JsMap.keys m).Nodup) : (JsMap.keys (JsMap.set m k v)).Nodup := by
  induction m with
  | nil => simp [JsMap.set, JsMap.keys]
  | cons e rest ih =>
    obtain ⟨k0, v0⟩ := e
    have hcons : k0 ∉ JsMap.keys rest ∧ (JsMap.keys rest).Nodup := by
      simpa [JsMap.keys] using h
    by_cases h0 : k0 = k
    · subst h0
      simpa [JsMap.set, JsMap.keys] using h
    · have hmem : k0 ∉ JsMap.keys (JsMap.set rest k v) := by
        rw [JsMap.mem_keys_set]
        rintro (h1 | h1)
        · exact h0 h1
        · exact hcons.1 h1
      have hnd := ih hcons.2
      simp only [JsMap.set, if_neg h0, JsMap.keys, List.map_cons, List.nodup_cons]
      exact ⟨hmem, hnd⟩

theorem JsMap.ofPairs_concat (ps : List (String × ν)) (p : String × ν) :
    JsMap.ofPairs (ps ++ [p]) = JsMap.set (JsMap.ofPairs ps) p.1 p.2 := by
  simp [JsMap.ofPairs, List.foldl_append]

theorem JsMap.nodup_keys_ofPairs (ps : List (String × ν)) :
    (JsMap.keys (JsMap.ofPairs ps)).Nodup := by
  induction ps using List.reverseRecOn with
  | nil => simp [JsMap.ofPairs, JsMap.keys]
  | append_singleton ps p ih =>
    rw [JsMap.ofPairs_concat]
    exact JsMap.nodup_keys_set _ _ _ ih

theorem JsMap.mem_keys_ofPairs (ps : List (String × ν)) (k : String) :
    k ∈ JsMap.keys (JsMap.ofPairs ps) ↔ k ∈ ps.map Prod.fst := by
  induction ps using List.reverseRecOn with
  | nil => simp [JsMap.ofPairs, JsMap.keys]
  | append_singleton ps p ih =>
    rw [JsMap.ofPairs_concat, JsMap.mem_keys_set, ih]
    simp only [List.map_append, List.map_cons, List.map_nil, List.mem_append,
      List.mem_singleton]
    tauto

theorem JsMap.size_ofPairs (ps : List (String × ν)) :
    JsMap.size (JsMap.ofPairs ps) = (ps.map Prod.fst).dedup.length := by
  have hperm : (JsMap.keys (JsMap.ofPairs ps)).Perm (ps.map Prod.fst).dedup := by
    rw [List.perm_ext_iff_of_nodup (JsMap.nodup_keys_ofPairs ps) (List.nodup_dedup _)]
    intro k
    rw [JsMap.mem_keys_ofPairs, List.mem_dedup]
  have hlen := hperm.length_eq
  simpa [JsMap.size, JsMap.keys] using hlen

theorem JsMap.get_ofPairs_map {ρ : Type} (key : ρ → String) (arr : List ρ) (k : String) :
    JsMap.get (JsMap.ofPairs (arr.map fun r => (key r, r))) k =
      (arr.filter (fun r => key r = k)).getLast? := by
  induction arr using List.reverseRecOn with
  | nil => simp [JsMap.ofPairs, JsMap.get]
  | append_singleton arr r ih =>
    rw [List.map_append, List.map_cons, List.map_nil, JsMap.ofPairs_concat, JsMap.get_set, ih,
      List.filter_append]
    by_cases h : key r = k
    · simp [h, List.filter_cons]
    · simp [h, List.filter_cons]

theorem lastWriteWins_ofPairs {ρ : Type} (key : ρ → String) (arr : List ρ) :
    LastWriteWins key arr (JsMap.ofPairs (arr.map fun r => (key r, r))) := by
  refine ⟨?_, JsMap.get_ofPairs_map key arr, ?_⟩
  · intro r hr
    apply List.count_eq_one_of_mem (JsMap.nodup_keys_ofPairs _)
    rw [JsMap.mem_keys_ofPairs]
    simp only [List.map_map, List.mem_map, Function.comp]
    exact ⟨r, hr, rfl⟩
  · rw [JsMap.size_ofPairs]
    simp [List.map_map, Function.comp_def]

theorem dedup_length_congr {ρ : Type} (f g : ρ → String) (l : List ρ)
    (h : ∀ u ∈ l, ∀ v ∈ l, f u = f v ↔ g u = g v) :
    (l.map f).dedup.length = (l.map g).dedup.length := by
  induction l with
  | nil => rfl
  | cons a l ih =>
    have ih1 := ih (fun u hu v hv => h u (List.mem_cons_of_mem _ hu) v (List.mem_cons_of_mem _ hv))
    have hmem : f a ∈ l.map f ↔ g a ∈ l.map g := by
      simp only [List.mem_map]
      constructor
      · rintro ⟨v, hv, hfv⟩
        exact ⟨v, hv, (h v (List.mem_cons_of_mem _ hv) a (List.mem_cons_self _ _)).1 hfv⟩
      · rintro ⟨v, hv, hgv⟩
        exact ⟨v, hv, (h v (List.mem_cons_of_mem _ hv) a (List.mem_cons_self _ _)).2 hgv⟩
    by_cases hf : f a ∈ l.map f
    · rw [List.map_cons, List.map_cons, List.dedup_cons_of_mem hf,
        List.dedup_cons_of_mem (hmem.1 hf), ih1]
    · rw [List.map_cons, List.map_cons, List.dedup_cons_of_not_mem hf,
        List.dedup_cons_of_not_mem (fun hg => hf (hmem.2 hg)), List.length_cons,
        List.length_cons, ih1]

end MapLemmas

/-! ## Collection fetchers: ordering -/

section FetcherLemmas

variable {lc : String → String → Int}

theorem byDisplayName_total (hc : ConsistentComparator lc) (a b : User) :
    byDisplayName lc a b ≤ 0 ∨ byDisplayName lc b a ≤ 0 :=
  hc.total _ _

theorem byDisplayName_trans (hc : ConsistentComparator lc) (a b c : User) :
    byDisplayName lc a b ≤ 0 → byDisplayName lc b c ≤ 0 → byDisplayName lc a c ≤ 0 :=
  hc.trans _ _ _

theorem byName_total (hc : ConsistentComparator lc) (a b : Asset) :
    byName lc a b ≤ 0 ∨ byName lc b a ≤ 0 :=
  hc.total _ _

theorem byName_trans (hc : ConsistentComparator lc) (a b c : Asset) :
    byName lc a b ≤ 0 → byName lc b c ≤ 0 → byName lc a c ≤ 0 :=
  hc.trans _ _ _

end FetcherLemmas

/-- C1: for every successful fetch response, the array each of `getUsers`,
`getFieldsAndBeds` and `getGreenhouses` returns is sorted ascending by its key
under the locale-aware comparison: every adjacent pair (indeed every pair in
array order) compares `≤ 0`, and sorting the returned array again leaves it
unchanged. -/
theorem fetchers_return_sorted {ε : Type} (localeCompare : String → String → Int)
    (hc : ConsistentComparator localeCompare) (farm : Farm ε) (log : List Request) :
    (∀ users, farm.user.fetch log usersQuery = .ok users →
      ∃ result, getUsers localeCompare farm log = (.ok result, log ++ [.userFetch usersQuery]) ∧
        result.Chain' (fun a b =>
          localeCompare a.attributes.display_name b.attributes.display_name ≤ 0) ∧
        result.Pairwise (fun a b =>
          localeCompare a.attributes.display_name b.attributes.display_name ≤ 0) ∧
        arraySort (fun o1 o2 =>
          localeCompare o1.attributes.display_name o2.attributes.display_name) result = result) ∧
    (∀ beds fields, farm.asset.fetch log bedsQuery = .ok beds →
      farm.asset.fetch (log ++ [.assetFetch bedsQuery]) fieldsQuery = .ok fields →
      ∃ result, getFieldsAndBeds localeCompare farm log =
          (.ok result, log ++ [.assetFetch bedsQuery] ++ [.assetFetch fieldsQuery]) ∧
        result.Chain' (fun a b => localeCompare a.attributes.name b.attributes.name ≤ 0) ∧
        result.Pairwise (fun a b => localeCompare a.attributes.name b.attributes.name ≤ 0) ∧
        arraySort (fun o1 o2 => localeCompare o1.attributes.name o2.attributes.name) result
          = result) ∧
    (∀ greenhouses, farm.asset.fetch log greenhousesQuery = .ok greenhouses →
      ∃ result, getGreenhouses localeCompare farm log =
          (.ok result, log ++ [.assetFetch greenhousesQuery]) ∧
        result.Chain' (fun a b => localeCompare a.attributes.name b.attributes.name ≤ 0) ∧
        result.Pairwise (fun a b => localeCompare a.attributes.name b.attributes.name ≤ 0) ∧
        arraySort (fun o1 o2 => localeCompare o1.attributes.name o2.attributes.name) result
          = result) := by
  refine ⟨?_, ?_, ?_⟩
  · intro users hu
    have hs := arraySort_pairwise (byDisplayName localeCompare) (byDisplayName_total hc)
      (byDisplayName_trans hc) users.data
    exact ⟨_, by simp only [getUsers, hu], hs.chain', hs,
      arraySort_of_pairwise (byDisplayName localeCompare) hs⟩
  · intro beds fields hb hf
    have hs := arraySort_pairwise (byName localeCompare) (byName_total hc)
      (byName_trans hc) (fields.data ++ beds.data)
    exact ⟨_, by simp only [getFieldsAndBeds, hb, hf], hs.chain', hs,
      arraySort_of_pairwise (byName localeCompare) hs⟩
  · intro greenhouses hg
    have hs := arraySort_pairwise (byName localeCompare) (byName_total hc)
      (byName_trans hc) greenhouses.data
    exact ⟨_, by simp only [getGreenhouses, hg], hs.chain', hs,
      arraySort_of_pairwise (byName localeCompare) hs⟩

/-- C1, exercised on `sampleFarm` with the code point comparator: the three
fetches succeed and the three results are sorted. -/
theorem fetchers_return_sorted_witness :
    ConsistentComparator codeUnitCompare ∧
    (∃ result, getUsers codeUnitCompare sampleFarm [] = (.ok result, [] ++ [.userFetch usersQuery]) ∧
      result.Chain' (fun a b =>
        codeUnitCompare a.attributes.display_name b.attributes.display_name ≤ 0) ∧
      result.Pairwise (fun a b =>
        codeUnitCompare a.attributes.display_name b.attributes.display_name ≤ 0) ∧
      arraySort (fun o1 o2 =>
        codeUnitCompare o1.attributes.display_name o2.attributes.display_name) result = result) ∧
    (∃ result, getFieldsAndBeds codeUnitCompare sampleFarm [] =
        (.ok result, [] ++ [.assetFetch bedsQuery] ++ [.assetFetch fieldsQuery]) ∧
      result.Chain' (fun a b => codeUnitCompare a.attributes.name b.attributes.name ≤ 0) ∧
      result.Pairwise (fun a b => codeUnitCompare a.attributes.name b.attributes.name ≤ 0) ∧
      arraySort (fun o1 o2 => codeUnitCompare o1.attributes.name o2.attributes.name) result
        = result) ∧
    (∃ result, getGreenhouses codeUnitCompare sampleFarm [] =
        (.ok result, [] ++ [.assetFetch greenhousesQuery]) ∧
      result.Chain' (fun a b => codeUnitCompare a.attributes.name b.attributes.name ≤ 0) ∧
      result.Pairwise (fun a b => codeUnitCompare a.attributes.name b.attributes.name ≤ 0) ∧
      arraySort (fun o1 o2 => codeUnitCompare o1.attributes.name o2.attributes.name) result
        = result) :=
  have h := fetchers_return_sorted codeUnitCompare codeUnitCompare_consistent sampleFarm []
  ⟨codeUnitCompare_consistent,
    h.1 ⟨[mkUser "u3" "manager1", mkUser "u1" "admin", mkUser "u2" "guest"]⟩ rfl,
    h.2.1 ⟨[mkLand "b1" "Bed A" "bed"]⟩ ⟨[mkLand "f1" "Field A" "field"]⟩ rfl rfl,
    h.2.2 ⟨[mkGreenhouse "g2" "Jasmine", mkGreenhouse "g1" "Chuau"]⟩ rfl⟩

/-- C2: for every pair of successful responses, `getFieldsAndBeds` returns the
records of the two responses, each once, sorted by name, in the order of a
stable sort of the fields followed by the beds: among the records whose names
compare equal to any given name the fields come first and then the beds, each
group in response order; a field precedes a bed whose name compares equal; and
one bed `Bed A` with one field `Field A` yield `[Bed A, Field A]` (`Bed A`
comparing below `Field A`). -/
theorem getFieldsAndBeds_stable_by_name {ε : Type} (localeCompare : String → String → Int)
    (hc : ConsistentComparator localeCompare) (farm : Farm ε) (log : List Request)
    (beds fields : Response Asset)
    (hb : farm.asset.fetch log bedsQuery = .ok beds)
    (hf : farm.asset.fetch (log ++ [.assetFetch bedsQuery]) fieldsQuery = .ok fields) :
    ∃ land, getFieldsAndBeds localeCompare farm log =
        (.ok land, log ++ [.assetFetch bedsQuery] ++ [.assetFetch fieldsQuery]) ∧
      land.Perm (fields.data ++ beds.data) ∧
      land.Pairwise (fun a b => localeCompare a.attributes.name b.attributes.name ≤ 0) ∧
      (∀ k : String,
        land.filter (fun a => localeCompare k a.attributes.name = 0) =
          fields.data.filter (fun a => localeCompare k a.attributes.name = 0) ++
            beds.data.filter (fun a => localeCompare k a.attributes.name = 0)) ∧
      (∀ f ∈ fields.data, ∀ b ∈ beds.data,
        localeCompare f.attributes.name b.attributes.name = 0 → List.Sublist [f, b] land) ∧
      (∀ bed field : Asset, beds.data = [bed] → fields.data = [field] →
        bed.attributes.name = "Bed A" → field.attributes.name = "Field A" →
        localeCompare "Bed A" "Field A" < 0 → land = [bed, field]) := by
  refine ⟨arraySort (byName localeCompare) (fields.data ++ beds.data),
    by simp only [getFieldsAndBeds, hb, hf], arraySort_perm _ _,
    arraySort_pairwise (byName localeCompare) (byName_total hc) (byName_trans hc) _,
    ?_, ?_, ?_⟩
  · intro k
    rw [filter_arraySort (byName localeCompare), List.filter_append]
    intro x _ y _ hx hy
    exact hc.class_le (of_decide_eq_true hx) (of_decide_eq_true hy)
  · intro f hf1 b hb1 hfb
    apply pair_sublist_arraySort (byName localeCompare)
    · show localeCompare f.attributes.name b.attributes.name ≤ 0
      omega
    · have h1 : List.Sublist [f] fields.data := List.singleton_sublist.2 hf1
      have h2 : List.Sublist [b] beds.data := List.singleton_sublist.2 hb1
      exact h1.append h2
  · intro bed field hbd hfd hbn hfn hlt
    have hgt : ¬ localeCompare "Field A" "Bed A" ≤ 0 := by
      have := (hc.antisymm "Bed A" "Field A").1 hlt
      omega
    simp [hbd, hfd, arraySort, insertOrdered, byName, hbn, hfn, hgt]

/-- C2, exercised with the code point comparator: on `sampleFarm` the result
is `[Bed A, Field A]`; on `duplicateFarm`, where the bed and the field share
the name `A`, the field comes first. -/
theorem getFieldsAndBeds_stable_by_name_witness :
    (∃ land, getFieldsAndBeds codeUnitCompare sampleFarm [] =
        (.ok land, [] ++ [.assetFetch bedsQuery] ++ [.assetFetch fieldsQuery]) ∧
      land = [mkLand "b1" "Bed A" "bed", mkLand "f1" "Field A" "field"]) ∧
    (∃ land, getFieldsAndBeds codeUnitCompare duplicateFarm [] =
        (.ok land, [] ++ [.assetFetch bedsQuery] ++ [.assetFetch fieldsQuery]) ∧
      land.Perm ([mkLand "f1" "A" "field"] ++ [mkLand "b1" "A" "bed"]) ∧
      List.Sublist [mkLand "f1" "A" "field", mkLand "b1" "A" "bed"] land) := by
  constructor
  · obtain ⟨land, h1, _, _, _, _, h6⟩ :=
      getFieldsAndBeds_stable_by_name codeUnitCompare codeUnitCompare_consistent sampleFarm []
        ⟨[mkLand "b1" "Bed A" "bed"]⟩ ⟨[mkLand "f1" "Field A" "field"]⟩ rfl rfl
    exact ⟨land, h1, h6 _ _ rfl rfl rfl rfl (by decide)⟩
  · obtain ⟨land, h1, h2, _, _, h5, _⟩ :=
      getFieldsAndBeds_stable_by_name codeUnitCompare codeUnitCompare_consistent duplicateFarm []
        ⟨[mkLand "b1" "A" "bed"]⟩ ⟨[mkLand "f1" "A" "field"]⟩ rfl rfl
    exact ⟨land, h1, h2, h5 _ (List.mem_singleton.2 rfl) _ (List.mem_singleton.2 rfl)
      (by decide)⟩

/-! ## Relationship helpers -/

section RelationshipLemmas

theorem lookupProp_assignProp (props : List (String × JsVal)) (key : String) (val : JsVal)
    (key1 : String) :
    lookupProp (assignProp props key val) key1 =
      if key = key1 then some val else lookupProp props key1 := by
  induction props with
  | nil => simp [assignProp, lookupProp]
  | cons e rest ih =>
    obtain ⟨k0, v0⟩ := e
    by_cases h0 : k0 = key
    · subst h0
      simp only [assignProp, if_true, lookupProp]
      split_ifs <;> rfl
    · simp only [assignProp, if_neg h0, lookupProp, ih]
      by_cases h1 : k0 = key1
      · have h2 : ¬ key = key1 := fun h => h0 (h1.trans h.symm)
        simp [h1, h2]
      · simp [h1]

theorem getProp_assignProp (props : List (String × JsVal)) (key : String) (val : JsVal)
    (key1 : String) :
    (JsVal.obj (assignProp props key val)).getProp key1 =
      if key = key1 then val else (JsVal.obj props).getProp key1 := by
  simp only [JsVal.getProp, lookupProp_assignProp]
  split_ifs <;> rfl

/-- An object with a `relationships.<relation>` array is an object whose
`relationships` property is an object holding that array. -/
theorem shape_of_relationship_array {obj : JsVal} {relation : String} {items : List JsVal}
    (h : (obj.getProp "relationships").getProp relation = .arr items) :
    ∃ props rprops, obj = .obj props ∧ lookupProp props "relationships" = some (.obj rprops) ∧
      lookupProp rprops relation = some (.arr items) := by
  cases obj with
  | obj props =>
    cases hl : lookupProp props "relationships" with
    | none => simp [JsVal.getProp, hl] at h
    | some rel =>
      cases rel with
      | obj rprops =>
        cases hr : lookupProp rprops relation with
        | none => simp [JsVal.getProp, hl, hr] at h
        | some v =>
          have hv : v = .arr items := by simpa [JsVal.getProp, hl, hr] using h
          exact ⟨props, rprops, rfl, hl, by rw [hr, hv]⟩
      | _ => simp [JsVal.getProp, hl] at h
  | _ => simp [JsVal.getProp] at h

theorem pushRelationship_spec {obj : JsVal} {relation : String} {items : List JsVal}
    (ref : JsVal) (h : (obj.getProp "relationships").getProp relation = .arr items) :
    ∃ result, relationshipOf obj relation = .ok (.arr items) ∧
      pushRelationship obj relation ref = .ok result ∧
      (result.getProp "relationships").getProp relation = .arr (items ++ [ref]) ∧
      (∀ k, k ≠ "relationships" → result.getProp k = obj.getProp k) ∧
      (∀ k, k ≠ relation →
        (result.getProp "relationships").getProp k = (obj.getProp "relationships").getProp k) := by
  obtain ⟨props, rprops, rfl, hl, hr⟩ := shape_of_relationship_array h
  refine ⟨.obj (assignProp props "relationships"
      (.obj (assignProp rprops relation (.arr (items ++ [ref]))))), ?_,
    by simp only [pushRelationship, hl, hr], ?_, ?_, ?_⟩
  · simp [relationshipOf, JsVal.isNullish, JsVal.getProp, hl, hr]
  · simp [getProp_assignProp]
  · intro k hk
    rw [getProp_assignProp, if_neg (Ne.symm hk)]
  · intro k hk
    rw [getProp_assignProp, if_pos rfl, getProp_assignProp, if_neg (Ne.symm hk)]
    simp [JsVal.getProp, hl]

/-- How the guard `!obj?.relationships.<relation>` settles when the property is
not there: a nullish `obj` reaches the `ReferenceError`; an object without
`relationships` (or with a nullish one) throws a `TypeError` while the guard is
evaluated; a `relationships` without a truthy entry reaches the
`ReferenceError`. -/
theorem addOwnerRelationship_failures (obj ownerId : JsVal) :
    (obj.isNullish = true →
      addOwnerRelationship obj ownerId = .error (.ReferenceError
        "The obj parameter does not have a relationships.owner property")) ∧
    (obj.isNullish = false → (obj.getProp "relationships").isNullish = true →
      ∃ message, addOwnerRelationship obj ownerId = .error (.TypeError message)) ∧
    (obj.isNullish = false → (obj.getProp "relationships").isNullish = false →
      ((obj.getProp "relationships").getProp "owner").truthy = false →
      addOwnerRelationship obj ownerId = .error (.ReferenceError
        "The obj parameter does not have a relationships.owner property")) := by
  refine ⟨?_, ?_, ?_⟩
  · intro h
    simp [addOwnerRelationship, relationshipOf, h, JsVal.truthy]
  · intro h1 h2
    exact ⟨_, by simp only [addOwnerRelationship, relationshipOf, h1, h2]; rfl⟩
  · intro h1 h2 h3
    simp [addOwnerRelationship, relationshipOf, h1, h2, h3]

theorem addParentRelationship_failures (obj parentId parentType : JsVal) :
    (obj.isNullish = true →
      addParentRelationship obj parentId parentType = .error (.ReferenceError
        "The obj parameter does not have a relationships.parent property")) ∧
    (obj.isNullish = false → (obj.getProp "relationships").isNullish = true →
      ∃ message, addParentRelationship obj parentId parentType = .error (.TypeError message)) ∧
    (obj.isNullish = false → (obj.getProp "relationships").isNullish = false →
      ((obj.getProp "relationships").getProp "parent").truthy = false →
      addParentRelationship obj parentId parentType = .error (.ReferenceError
        "The obj parameter does not have a relationships.parent property")) := by
  refine ⟨?_, ?_, ?_⟩
  · intro h
    simp [addParentRelationship, relationshipOf, h, JsVal.truthy]
  · intro h1 h2
    exact ⟨_, by simp only [addParentRelationship, relationshipOf, h1, h2]; rfl⟩
  · intro h1 h2 h3
    simp [addParentRelationship, relationshipOf, h1, h2, h3]

end RelationshipLemmas

/-- C3: on an object that has a `relationships.owner` list,
`addOwnerRelationship(obj, ownerId)` returns the object with exactly one
reference `{type: "user--user", id: ownerId}` appended at the end of that list
(earlier entries kept in order) and every other property unchanged; and on an
object that has a `relationships.parent` list,
`addParentRelationship(obj, parentId, parentType)` returns the object with
exactly one reference `{type: parentType, id: parentId}` appended at the end of
that list and every other property unchanged. -/
theorem addRelationship_appends_one_reference :
    (∀ (obj ownerId : JsVal) (items : List JsVal),
      (obj.getProp "relationships").getProp "owner" = .arr items →
      ∃ result, addOwnerRelationship obj ownerId = .ok result ∧
        (result.getProp "relationships").getProp "owner" =
          .arr (items ++ [.obj [("type", .str "user--user"), ("id", ownerId)]]) ∧
        (∀ k, k ≠ "relationships" → result.getProp k = obj.getProp k) ∧
        (∀ k, k ≠ "owner" →
          (result.getProp "relationships").getProp k =
            (obj.getProp "relationships").getProp k)) ∧
    (∀ (obj parentId parentType : JsVal) (items : List JsVal),
      (obj.getProp "relationships").getProp "parent" = .arr items →
      ∃ result, addParentRelationship obj parentId parentType = .ok result ∧
        (result.getProp "relationships").getProp "parent" =
          .arr (items ++ [.obj [("type", parentType), ("id", parentId)]]) ∧
        (∀ k, k ≠ "relationships" → result.getProp k = obj.getProp k) ∧
        (∀ k, k ≠ "parent" →
          (result.getProp "relationships").getProp k =
            (obj.getProp "relationships").getProp k)) := by
  constructor
  · intro obj ownerId items h
    obtain ⟨result, h1, h2, h3⟩ :=
      pushRelationship_spec (.obj [("type", .str "user--user"), ("id", ownerId)]) h
    exact ⟨result, by simp [addOwnerRelationship, h1, h2, JsVal.truthy], h3⟩
  · intro obj parentId parentType items h
    obtain ⟨result, h1, h2, h3⟩ :=
      pushRelationship_spec (.obj [("type", parentType), ("id", parentId)]) h
    exact ⟨result, by simp [addParentRelationship, h1, h2, JsVal.truthy], h3⟩

/-- C3, exercised on `sampleLog`: one owner, then one parent on the result. -/
theorem addRelationship_appends_one_reference_witness :
    (∃ result, addOwnerRelationship sampleLog (.str "u1") = .ok result ∧
      (result.getProp "relationships").getProp "owner" =
        .arr ([] ++ [.obj [("type", .str "user--user"), ("id", .str "u1")]])) ∧
    (∃ result, addParentRelationship sampleLog (.str "a7") (.str "asset--land") = .ok result ∧
      (result.getProp "relationships").getProp "parent" =
        .arr ([] ++ [.obj [("type", .str "asset--land"), ("id", .str "a7")]])) := by
  constructor
  · obtain ⟨result, h1, h2, _⟩ :=
      addRelationship_appends_one_reference.1 sampleLog (.str "u1") [] rfl
    exact ⟨result, h1, h2⟩
  · obtain ⟨result, h1, h2, _⟩ :=
      addRelationship_appends_one_reference.2 sampleLog (.str "a7") (.str "asset--land") [] rfl
    exact ⟨result, h1, h2⟩

/-- C4 (what the code does): on an object with no `relationships` at all the
helpers fail with a `TypeError`, not the documented `ReferenceError`; on a
nullish object, and on an object whose `relationships` has no such entry, they
fail with the `ReferenceError`. -/
theorem addRelationship_missing_relationships_typeError :
    addOwnerRelationship (.obj [("id", .str "log-1")]) (.str "u1") =
      .error (.TypeError "Cannot read properties of undefined (reading owner)") ∧
    addParentRelationship (.obj [("id", .str "log-1")]) (.str "a7") (.str "asset--land") =
      .error (.TypeError "Cannot read properties of undefined (reading parent)") ∧
    addOwnerRelationship .null (.str "u1") =
      .error (.ReferenceError "The obj parameter does not have a relationships.owner property") ∧
    addOwnerRelationship .undefined (.str "u1") =
      .error (.ReferenceError "The obj parameter does not have a relationships.owner property") ∧
    addOwnerRelationship (.obj [("relationships", .obj [("parent", .arr [])])]) (.str "u1") =
      .error (.ReferenceError "The obj parameter does not have a relationships.owner property") ∧
    addParentRelationship (.obj [("relationships", .obj [("owner", .arr [])])]) (.str "a7")
        (.str "asset--land") =
      .error (.ReferenceError "The obj parameter does not have a relationships.parent property") :=
  ⟨rfl, rfl, rfl, rfl, rfl, rfl⟩

/-! ## Lookup builders -/

section BuilderLemmas

variable {ε : Type} (lc : String → String → Int) (farm : Farm ε) (log : List Request)

theorem getUsers_ok {users : Response User} (h : farm.user.fetch log usersQuery = .ok users) :
    getUsers lc farm log =
      (.ok (arraySort (byDisplayName lc) users.data), log ++ [.userFetch usersQuery]) := by
  simp only [getUsers, h]

theorem getUsernameToUserMap_ok {users : Response User}
    (h : farm.user.fetch log usersQuery = .ok users) :
    getUsernameToUserMap lc farm log =
      (.ok (JsMap.ofPairs ((arraySort (byDisplayName lc) users.data).map
        fun user => (user.attributes.display_name, user))), log ++ [.userFetch usersQuery]) := by
  simp only [getUsernameToUserMap, getUsers_ok lc farm log h]

theorem getUserIdToUserMap_ok {users : Response User}
    (h : farm.user.fetch log usersQuery = .ok users) :
    getUserIdToUserMap lc farm log =
      (.ok (JsMap.ofPairs ((arraySort (byDisplayName lc) users.data).map
        fun user => (user.id, user))), log ++ [.userFetch usersQuery]) := by
  simp only [getUserIdToUserMap, getUsers_ok lc farm log h]

theorem getLast_filter_of_mem {ρ : Type} (p : ρ → Bool) (l : List ρ) (x : ρ) (hx : x ∈ l)
    (hp : p x = true) : ∃ v, (l.filter p).getLast? = some v ∧ v ∈ l ∧ p v = true := by
  have hne : l.filter p ≠ [] := List.ne_nil_of_mem (List.mem_filter.2 ⟨hx, hp⟩)
  refine ⟨(l.filter p).getLast hne, List.getLast?_eq_getLast _ hne, ?_⟩
  exact List.mem_filter.1 (List.getLast_mem hne)

end BuilderLemmas

/-- C5 fails as stated: on `duplicateFarm`, whose response holds two users with
the display name `sam`, the name map has one entry and the id map two, and
the name map's entry for the display name of user `u1` is user `u2`, not the
id map's entry for `u1`. -/
theorem userMaps_differ_on_shared_display_name :
    getUsernameToUserMap codeUnitCompare duplicateFarm [] =
      (.ok [("sam", mkUser "u2" "sam")], [.userFetch usersQuery]) ∧
    getUserIdToUserMap codeUnitCompare duplicateFarm [] =
      (.ok [("u1", mkUser "u1" "sam"), ("u2", mkUser "u2" "sam")], [.userFetch usersQuery]) ∧
    JsMap.size [("sam", mkUser "u2" "sam")] ≠
      JsMap.size [("u1", mkUser "u1" "sam"), ("u2", mkUser "u2" "sam")] ∧
    JsMap.get [("sam", mkUser "u2" "sam")] (mkUser "u1" "sam").attributes.display_name ≠
      JsMap.get [("u1", mkUser "u1" "sam"), ("u2", mkUser "u2" "sam")] (mkUser "u1" "sam").id :=
  ⟨rfl, rfl, by decide, by decide⟩

/-- C5, amended: when two users of the response have the same display name
exactly when they have the same id, the name map and the id map built from
that response have equal size, and for every user `u` of the response the name
map's entry for `u.attributes.display_name` equals the id map's entry for
`u.id`; that entry is a user with that display name, and looking it up by its
own id returns it. -/
theorem userMaps_agree_when_names_match_ids {ε : Type} (localeCompare : String → String → Int)
    (farm : Farm ε) (log1 log2 : List Request) (users : Response User)
    (h1 : farm.user.fetch log1 usersQuery = .ok users)
    (h2 : farm.user.fetch log2 usersQuery = .ok users)
    (hkeys : ∀ u ∈ users.data, ∀ v ∈ users.data,
      u.attributes.display_name = v.attributes.display_name ↔ u.id = v.id) :
    ∃ nameMap idMap,
      getUsernameToUserMap localeCompare farm log1 =
        (.ok nameMap, log1 ++ [.userFetch usersQuery]) ∧
      getUserIdToUserMap localeCompare farm log2 =
        (.ok idMap, log2 ++ [.userFetch usersQuery]) ∧
      nameMap.size = idMap.size ∧
      ∀ u ∈ users.data,
        nameMap.get u.attributes.display_name = idMap.get u.id ∧
        ∃ v, nameMap.get u.attributes.display_name = some v ∧
          v.attributes.display_name = u.attributes.display_name ∧ idMap.get v.id = some v := by
  have hmem : ∀ {x : User}, x ∈ arraySort (byDisplayName localeCompare) users.data ↔
      x ∈ users.data := mem_arraySort _
  have hagree : ∀ u ∈ users.data,
      JsMap.get (JsMap.ofPairs ((arraySort (byDisplayName localeCompare) users.data).map
        fun user => (user.attributes.display_name, user))) u.attributes.display_name =
      JsMap.get (JsMap.ofPairs ((arraySort (byDisplayName localeCompare) users.data).map
        fun user => (user.id, user))) u.id := by
    intro u hu
    rw [JsMap.get_ofPairs_map (fun user : User => user.attributes.display_name),
      JsMap.get_ofPairs_map (fun user : User => user.id)]
    congr 1
    apply List.filter_congr
    intro x hx
    have := hkeys x (hmem.1 hx) u hu
    simp only [decide_eq_decide]
    exact this
  refine ⟨_, _, getUsernameToUserMap_ok localeCompare farm log1 h1,
    getUserIdToUserMap_ok localeCompare farm log2 h2, ?_, ?_⟩
  · rw [JsMap.size_ofPairs, JsMap.size_ofPairs, List.map_map, List.map_map]
    exact dedup_length_congr _ _ _
      (fun u hu v hv => hkeys u (hmem.1 hu) v (hmem.1 hv))
  · intro u hu
    refine ⟨hagree u hu, ?_⟩
    obtain ⟨v, hv, hvmem, hvp⟩ := getLast_filter_of_mem
      (fun r : User => decide (r.attributes.display_name = u.attributes.display_name))
      (arraySort (byDisplayName localeCompare) users.data) u (hmem.2 hu) (by simp)
    have hvn : v.attributes.display_name = u.attributes.display_name := of_decide_eq_true hvp
    have hname : JsMap.get (JsMap.ofPairs
        ((arraySort (byDisplayName localeCompare) users.data).map
          fun user => (user.attributes.display_name, user))) u.attributes.display_name =
        some v := by
      rw [JsMap.get_ofPairs_map (fun user : User => user.attributes.display_name)]
      exact hv
    refine ⟨v, hname, hvn, ?_⟩
    rw [← hagree v (hmem.1 hvmem), hvn]
    exact hname

/-- C5 amended, exercised on `sampleFarm`, whose three users have distinct
display names and ids. -/
theorem userMaps_agree_when_names_match_ids_witness :
    ∃ nameMap idMap,
      getUsernameToUserMap codeUnitCompare sampleFarm [] =
        (.ok nameMap, [] ++ [.userFetch usersQuery]) ∧
      getUserIdToUserMap codeUnitCompare sampleFarm [.userFetch usersQuery] =
        (.ok idMap, [.userFetch usersQuery] ++ [.userFetch usersQuery]) ∧
      nameMap.size = idMap.size ∧
      ∀ u ∈ [mkUser "u3" "manager1", mkUser "u1" "admin", mkUser "u2" "guest"],
        nameMap.get u.attributes.display_name = idMap.get u.id ∧
        ∃ v, nameMap.get u.attributes.display_name = some v ∧
          v.attributes.display_name = u.attributes.display_name ∧ idMap.get v.id = some v :=
  userMaps_agree_when_names_match_ids codeUnitCompare sampleFarm [] [.userFetch usersQuery]
    ⟨[mkUser "u3" "manager1", mkUser "u1" "admin", mkUser "u2" "guest"]⟩ rfl rfl (by decide)

/-- C6 fails as stated: `getUsernameToUserMap` on `sampleFarm` issues one fetch
request, and `getFieldOrBedNameToAssetMap` two. -/
theorem lookup_builders_issue_requests :
    (getUsernameToUserMap codeUnitCompare sampleFarm []).2 = [.userFetch usersQuery] ∧
    (getUsernameToUserMap codeUnitCompare sampleFarm []).2.length ≠
      ([] : List Request).length ∧
    (getFieldOrBedNameToAssetMap codeUnitCompare sampleFarm []).2.length =
      ([] : List Request).length + 2 :=
  ⟨rfl, by decide, rfl⟩

/-- C6, amended: every lookup builder issues exactly the fetch requests of the
fetcher it is built on, and no other: the two user maps one user fetch, the
two greenhouse maps one asset fetch, and the two field-or-bed maps the bed
query followed, when the bed query succeeds, by the field query. -/
theorem lookup_builders_issue_fetcher_requests {ε : Type}
    (localeCompare : String → String → Int) (farm : Farm ε) (log : List Request) :
    (getUsernameToUserMap localeCompare farm log).2 = log ++ [.userFetch usersQuery] ∧
    (getUserIdToUserMap localeCompare farm log).2 = log ++ [.userFetch usersQuery] ∧
    (getGreenhouseNameToAssetMap localeCompare farm log).2 =
      log ++ [.assetFetch greenhousesQuery] ∧
    (getGreenhouseIdToAssetMap localeCompare farm log).2 =
      log ++ [.assetFetch greenhousesQuery] ∧
    (getFieldOrBedNameToAssetMap localeCompare farm log).2 =
      (getFieldsAndBeds localeCompare farm log).2 ∧
    (getFieldOrBedIdToAssetMap localeCompare farm log).2 =
      (getFieldsAndBeds localeCompare farm log).2 ∧
    (getFieldsAndBeds localeCompare farm log).2 =
      log ++ [.assetFetch bedsQuery] ++
        (match farm.asset.fetch log bedsQuery with
          | .ok _ => [.assetFetch fieldsQuery]
          | .error _ => []) := by
  refine ⟨?_, ?_, ?_, ?_, ?_, ?_, ?_⟩
  · simp only [getUsernameToUserMap, getUsers]
    cases farm.user.fetch log usersQuery <;> rfl
  · simp only [getUserIdToUserMap, getUsers]
    cases farm.user.fetch log usersQuery <;> rfl
  · simp only [getGreenhouseNameToAssetMap, getGreenhouses]
    cases farm.asset.fetch log greenhousesQuery <;> rfl
  · simp only [getGreenhouseIdToAssetMap, getGreenhouses]
    cases farm.asset.fetch log greenhousesQuery <;> rfl
  · simp only [getFieldOrBedNameToAssetMap, getFieldsAndBeds]
    cases farm.asset.fetch log bedsQuery with
    | error e => rfl
    | ok beds => cases farm.asset.fetch (log ++ [.assetFetch bedsQuery]) fieldsQuery <;> rfl
  · simp only [getFieldOrBedIdToAssetMap, getFieldsAndBeds]
    cases farm.asset.fetch log bedsQuery with
    | error e => rfl
    | ok beds => cases farm.asset.fetch (log ++ [.assetFetch bedsQuery]) fieldsQuery <;> rfl
  · simp only [getFieldsAndBeds]
    cases farm.asset.fetch log bedsQuery with
    | error e => simp
    | ok beds => cases farm.asset.fetch (log ++ [.assetFetch bedsQuery]) fieldsQuery <;> rfl

/-! ## Collection fetchers: errors and membership -/

/-- C8: each fetcher fails with exactly the transport's error whenever one of
its queries fails (for `getFieldsAndBeds`: the bed query, or the field query
after a successful bed query), and returns the empty array without error when
every query succeeds with zero records. -/
theorem fetchers_surface_errors_and_empty_results {ε : Type}
    (localeCompare : String → String → Int) (farm : Farm ε) (log : List Request) :
    (∀ e, farm.user.fetch log usersQuery = .error e →
      getUsers localeCompare farm log = (.error e, log ++ [.userFetch usersQuery])) ∧
    (∀ e, farm.asset.fetch log bedsQuery = .error e →
      getFieldsAndBeds localeCompare farm log = (.error e, log ++ [.assetFetch bedsQuery])) ∧
    (∀ beds e, farm.asset.fetch log bedsQuery = .ok beds →
      farm.asset.fetch (log ++ [.assetFetch bedsQuery]) fieldsQuery = .error e →
      getFieldsAndBeds localeCompare farm log =
        (.error e, log ++ [.assetFetch bedsQuery] ++ [.assetFetch fieldsQuery])) ∧
    (∀ e, farm.asset.fetch log greenhousesQuery = .error e →
      getGreenhouses localeCompare farm log =
        (.error e, log ++ [.assetFetch greenhousesQuery])) ∧
    (∀ users, farm.user.fetch log usersQuery = .ok users → users.data = [] →
      getUsers localeCompare farm log = (.ok [], log ++ [.userFetch usersQuery])) ∧
    (∀ beds fields, farm.asset.fetch log bedsQuery = .ok beds →
      farm.asset.fetch (log ++ [.assetFetch bedsQuery]) fieldsQuery = .ok fields →
      beds.data = [] → fields.data = [] →
      getFieldsAndBeds localeCompare farm log =
        (.ok [], log ++ [.assetFetch bedsQuery] ++ [.assetFetch fieldsQuery])) ∧
    (∀ greenhouses, farm.asset.fetch log greenhousesQuery = .ok greenhouses →
      greenhouses.data = [] →
      getGreenhouses localeCompare farm log =
        (.ok [], log ++ [.assetFetch greenhousesQuery])) := by
  refine ⟨?_, ?_, ?_, ?_, ?_, ?_, ?_⟩
  · intro e h
    simp only [getUsers, h]
  · intro e h
    simp only [getFieldsAndBeds, h]
  · intro beds e hb hf
    simp only [getFieldsAndBeds, hb, hf]
  · intro e h
    simp only [getGreenhouses, h]
  · intro users h hd
    simp only [getUsers, h, hd, arraySort]
  · intro beds fields hb hf hbd hfd
    simp only [getFieldsAndBeds, hb, hf, hbd, hfd, List.append_nil, arraySort]
  · intro greenhouses h hd
    simp only [getGreenhouses, h, hd, arraySort]

/-- C8, exercised: `offlineFarm` fails every first query, `flakyFarm` answers
the bed query and fails the field query, `emptyFarm` has no record. -/
theorem fetchers_surface_errors_and_empty_results_witness :
    getUsers codeUnitCompare offlineFarm [] =
      (.error "network down", [] ++ [.userFetch usersQuery]) ∧
    getFieldsAndBeds codeUnitCompare offlineFarm [] =
      (.error "network down", [] ++ [.assetFetch bedsQuery]) ∧
    getFieldsAndBeds codeUnitCompare flakyFarm [] =
      (.error "network down", [] ++ [.assetFetch bedsQuery] ++ [.assetFetch fieldsQuery]) ∧
    getGreenhouses codeUnitCompare offlineFarm [] =
      (.error "network down", [] ++ [.assetFetch greenhousesQuery]) ∧
    getUsers codeUnitCompare emptyFarm [] = (.ok [], [] ++ [.userFetch usersQuery]) ∧
    getFieldsAndBeds codeUnitCompare emptyFarm [] =
      (.ok [], [] ++ [.assetFetch bedsQuery] ++ [.assetFetch fieldsQuery]) ∧
    getGreenhouses codeUnitCompare emptyFarm [] =
      (.ok [], [] ++ [.assetFetch greenhousesQuery]) :=
  have off := fetchers_surface_errors_and_empty_results codeUnitCompare offlineFarm []
  have flaky := fetchers_surface_errors_and_empty_results codeUnitCompare flakyFarm []
  have empty := fetchers_surface_errors_and_empty_results codeUnitCompare emptyFarm []
  ⟨off.1 "network down" rfl, off.2.1 "network down" rfl,
    flaky.2.2.1 ⟨[]⟩ "network down" rfl rfl, off.2.2.2.1 "network down" rfl,
    empty.2.2.2.2.1 ⟨[]⟩ rfl rfl, empty.2.2.2.2.2.1 ⟨[]⟩ ⟨[]⟩ rfl rfl rfl rfl,
    empty.2.2.2.2.2.2 ⟨[]⟩ rfl rfl⟩

/-- C9: `getUsers` issues the single query with filter type `user--user` and
status `true`, and every element of the array it returns is a record of the
response to that query; so when no record of the response is the anonymous
user (whatever property singles it out, in particular the display name
`Anonymous`), none is in the output, and `Anonymous` is not a key of the map
`getUsernameToUserMap` returns. -/
theorem getUsers_returns_only_response_records {ε : Type}
    (localeCompare : String → String → Int) (farm : Farm ε) (log : List Request)
    (users : Response User) (h : farm.user.fetch log usersQuery = .ok users) :
    ∃ result,
      getUsers localeCompare farm log =
        (.ok result, log ++ [.userFetch
          { filter := [("type", .str "user--user"), ("status", .bool true)],
            limit := .Infinity }]) ∧
      (∀ u ∈ result, u ∈ users.data) ∧
      (∀ anonymous : User → Prop, (∀ u ∈ users.data, ¬ anonymous u) →
        ∀ u ∈ result, ¬ anonymous u) ∧
      ((∀ u ∈ users.data, u.attributes.display_name ≠ "Anonymous") →
        (∀ u ∈ result, u.attributes.display_name ≠ "Anonymous") ∧
        ∃ m, getUsernameToUserMap localeCompare farm log =
            (.ok m, log ++ [.userFetch usersQuery]) ∧
          m.get "Anonymous" = none ∧ "Anonymous" ∉ m.keys) := by
  have hmem : ∀ {x : User}, x ∈ arraySort (byDisplayName localeCompare) users.data ↔
      x ∈ users.data := mem_arraySort _
  refine ⟨_, getUsers_ok localeCompare farm log h, fun u hu => hmem.1 hu,
    fun anonymous ha u hu => ha u (hmem.1 hu), ?_⟩
  intro hanon
  refine ⟨fun u hu => hanon u (hmem.1 hu), _,
    getUsernameToUserMap_ok localeCompare farm log h, ?_, ?_⟩
  · rw [JsMap.get_ofPairs_map (fun user : User => user.attributes.display_name),
      List.getLast?_eq_none_iff, List.filter_eq_nil_iff]
    intro u hu
    simpa using hanon u (hmem.1 hu)
  · rw [JsMap.mem_keys_ofPairs]
    simp only [List.map_map, List.mem_map, Function.comp, not_exists, not_and]
    intro u hu
    exact hanon u (hmem.1 hu)

/-- C9, exercised on `sampleFarm`, whose response has no anonymous user. -/
theorem getUsers_returns_only_response_records_witness :
    ∃ result,
      getUsers codeUnitCompare sampleFarm [] = (.ok result, [] ++ [.userFetch usersQuery]) ∧
      (∀ u ∈ result, u.attributes.display_name ≠ "Anonymous") ∧
      ∃ m, getUsernameToUserMap codeUnitCompare sampleFarm [] =
          (.ok m, [] ++ [.userFetch usersQuery]) ∧
        m.get "Anonymous" = none ∧ "Anonymous" ∉ m.keys := by
  obtain ⟨result, h1, _, _, h4⟩ :=
    getUsers_returns_only_response_records codeUnitCompare sampleFarm []
      ⟨[mkUser "u3" "manager1", mkUser "u1" "admin", mkUser "u2" "guest"]⟩ rfl
  exact ⟨result, h1, h4 (by decide)⟩

/-- C10: the lookup builders are last-write-wins and validate no uniqueness:
whatever array the fetcher returns, the built map has exactly one entry for
every key of a record, the entry of a key is the record that comes last with
that key in the fetcher's sorted array, and the size of the map is the number
of distinct keys. -/
theorem lookup_builders_last_write_wins {ε : Type}
    (localeCompare : String → String → Int) (farm : Farm ε) (log : List Request) :
    (∀ users log1, getUsers localeCompare farm log = (.ok users, log1) →
      ∃ m, getUsernameToUserMap localeCompare farm log = (.ok m, log1) ∧
        LastWriteWins (fun user => user.attributes.display_name) users m) ∧
    (∀ users log1, getUsers localeCompare farm log = (.ok users, log1) →
      ∃ m, getUserIdToUserMap localeCompare farm log = (.ok m, log1) ∧
        LastWriteWins (fun user => user.id) users m) ∧
    (∀ land log1, getFieldsAndBeds localeCompare farm log = (.ok land, log1) →
      ∃ m, getFieldOrBedNameToAssetMap localeCompare farm log = (.ok m, log1) ∧
        LastWriteWins (fun land => land.attributes.name) land m) ∧
    (∀ land log1, getFieldsAndBeds localeCompare farm log = (.ok land, log1) →
      ∃ m, getFieldOrBedIdToAssetMap localeCompare farm log = (.ok m, log1) ∧
        LastWriteWins (fun land => land.id) land m) ∧
    (∀ greenhouses log1, getGreenhouses localeCompare farm log = (.ok greenhouses, log1) →
      ∃ m, getGreenhouseNameToAssetMap localeCompare farm log = (.ok m, log1) ∧
        LastWriteWins (fun gh => gh.attributes.name) greenhouses m) ∧
    (∀ greenhouses log1, getGreenhouses localeCompare farm log = (.ok greenhouses, log1) →
      ∃ m, getGreenhouseIdToAssetMap localeCompare farm log = (.ok m, log1) ∧
        LastWriteWins (fun gh => gh.id) greenhouses m) := by
  refine ⟨?_, ?_, ?_, ?_, ?_, ?_⟩
  · intro users log1 h
    exact ⟨_, by simp only [getUsernameToUserMap, h], lastWriteWins_ofPairs _ _⟩
  · intro users log1 h
    exact ⟨_, by simp only [getUserIdToUserMap, h], lastWriteWins_ofPairs _ _⟩
  · intro land log1 h
    exact ⟨_, by simp only [getFieldOrBedNameToAssetMap, h], lastWriteWins_ofPairs _ _⟩
  · intro land log1 h
    exact ⟨_, by simp only [getFieldOrBedIdToAssetMap, h], lastWriteWins_ofPairs _ _⟩
  · intro greenhouses log1 h
    exact ⟨_, by simp only [getGreenhouseNameToAssetMap, h], lastWriteWins_ofPairs _ _⟩
  · intro greenhouses log1 h
    exact ⟨_, by simp only [getGreenhouseIdToAssetMap, h], lastWriteWins_ofPairs _ _⟩

/-- C10, exercised on `duplicateFarm`: two users share the display name `sam`,
a field and a bed share the name `A`, two greenhouses share the name `G`; each
name map has one entry, holding the record that is last in the sorted array. -/
theorem lookup_builders_last_write_wins_witness :
    (∃ m, getUsernameToUserMap codeUnitCompare duplicateFarm [] =
        (.ok m, [.userFetch usersQuery]) ∧
      m.get "sam" = some (mkUser "u2" "sam") ∧ m.size = 1) ∧
    (∃ m, getUserIdToUserMap codeUnitCompare duplicateFarm [] =
        (.ok m, [.userFetch usersQuery]) ∧
      m.get "u1" = some (mkUser "u1" "sam") ∧ m.size = 2) ∧
    (∃ m, getFieldOrBedNameToAssetMap codeUnitCompare duplicateFarm [] =
        (.ok m, [.assetFetch bedsQuery, .assetFetch fieldsQuery]) ∧
      m.get "A" = some (mkLand "b1" "A" "bed") ∧ m.size = 1) ∧
    (∃ m, getFieldOrBedIdToAssetMap codeUnitCompare duplicateFarm [] =
        (.ok m, [.assetFetch bedsQuery, .assetFetch fieldsQuery]) ∧
      m.get "f1" = some (mkLand "f1" "A" "field") ∧ m.size = 2) ∧
    (∃ m, getGreenhouseNameToAssetMap codeUnitCompare duplicateFarm [] =
        (.ok m, [.assetFetch greenhousesQuery]) ∧
      m.get "G" = some (mkGreenhouse "g2" "G") ∧ m.size = 1) ∧
    (∃ m, getGreenhouseIdToAssetMap codeUnitCompare duplicateFarm [] =
        (.ok m, [.assetFetch greenhousesQuery]) ∧
      m.get "g1" = some (mkGreenhouse "g1" "G") ∧ m.size = 2) := by
  have h := lookup_builders_last_write_wins codeUnitCompare duplicateFarm []
  refine ⟨?_, ?_, ?_, ?_, ?_, ?_⟩
  · obtain ⟨m, h1, _, h3, h4⟩ := h.1 [mkUser "u1" "sam", mkUser "u2" "sam"] _ rfl
    exact ⟨m, h1, (h3 "sam").trans (by decide), h4.trans (by decide)⟩
  · obtain ⟨m, h1, _, h3, h4⟩ := h.2.1 [mkUser "u1" "sam", mkUser "u2" "sam"] _ rfl
    exact ⟨m, h1, (h3 "u1").trans (by decide), h4.trans (by decide)⟩
  · obtain ⟨m, h1, _, h3, h4⟩ :=
      h.2.2.1 [mkLand "f1" "A" "field", mkLand "b1" "A" "bed"] _ rfl
    exact ⟨m, h1, (h3 "A").trans (by decide), h4.trans (by decide)⟩
  · obtain ⟨m, h1, _, h3, h4⟩ :=
      h.2.2.2.1 [mkLand "f1" "A" "field", mkLand "b1" "A" "bed"] _ rfl
    exact ⟨m, h1, (h3 "f1").trans (by decide), h4.trans (by decide)⟩
  · obtain ⟨m, h1, _, h3, h4⟩ :=
      h.2.2.2.2.1 [mkGreenhouse "g1" "G", mkGreenhouse "g2" "G"] _ rfl
    exact ⟨m, h1, (h3 "G").trans (by decide), h4.trans (by decide)⟩
  · obtain ⟨m, h1, _, h3, h4⟩ :=
      h.2.2.2.2.2 [mkGreenhouse "g1" "G", mkGreenhouse "g2" "G"] _ rfl
    exact ⟨m, h1, (h3 "g1").trans (by decide), h4.trans (by decide)⟩

/-! ## Connection factory -/

section ConnectionLemmas

variable {ε τ σ : Type} (json : Json ε τ) (lib : Client ε σ)
  (hostURL client user pass : String) (w : World σ)

/-- With a token in the store, `getFarmOSInstance` goes straight to the schema
fetch. -/
theorem getFarmOSInstance_of_token {token : τ} (h : getToken json w.env = .ok (some token)) :
    getFarmOSInstance json lib hostURL client user pass w =
      match lib.schemaFetch { host := hostURL, clientId := client } w.env with
      | (.error e, env2) => (.error e, { env := env2, calls := w.calls ++ [.schemaFetch] })
      | (.ok schemata, env2) =>
        (.ok { config := { host := hostURL, clientId := client }, schema := some schemata },
          { env := env2, calls := w.calls ++ [.schemaFetch, .schemaSet schemata] }) := by
  simp only [getFarmOSInstance, h]

/-- The calls `getFarmOSInstance` makes extend the calls made before; the
extension holds one authorization request when the token read is `null`, and
none otherwise. -/
theorem getFarmOSInstance_calls :
    ∃ made, (getFarmOSInstance json lib hostURL client user pass w).2.calls = w.calls ++ made ∧
      authorizeCount made = (match getToken json w.env with | .ok none => 1 | _ => 0) := by
  unfold getFarmOSInstance
  cases hg : getToken json w.env with
  | error e => exact ⟨[], by simp, by simp [authorizeCount]⟩
  | ok token =>
    cases token with
    | some t =>
      simp only
      rcases hs : lib.schemaFetch { host := hostURL, clientId := client } w.env with ⟨r, env2⟩
      cases r with
      | error e => exact ⟨[.schemaFetch], rfl, by simp [authorizeCount, RemoteCall.isAuthorize]⟩
      | ok schemata =>
        exact ⟨[.schemaFetch, .schemaSet schemata], rfl,
          by simp [authorizeCount, RemoteCall.isAuthorize]⟩
    | none =>
      simp only
      rcases ha : lib.authorize { host := hostURL, clientId := client } user pass w.env
        with ⟨r, env1⟩
      cases r with
      | error e =>
        exact ⟨[.authorize user pass], rfl, by simp [authorizeCount, RemoteCall.isAuthorize]⟩
      | ok u =>
        simp only
        rcases hs : lib.schemaFetch { host := hostURL, clientId := client } env1 with ⟨r, env2⟩
        cases r with
        | error e =>
          exact ⟨[.authorize user pass, .schemaFetch], by simp,
            by simp [authorizeCount, RemoteCall.isAuthorize]⟩
        | ok schemata =>
          exact ⟨[.authorize user pass, .schemaFetch, .schemaSet schemata], by simp,
            by simp [authorizeCount, RemoteCall.isAuthorize]⟩

end ConnectionLemmas

/-- C7: `getFarmOSInstance` performs an authorization request if and only if
the stored token read by `getToken` is `null` (one request then, none
otherwise); in particular a second call made after a first call has stored a
token performs no authorization request, fetches the schema once, and, when
that fetch succeeds, returns the farm with the fetched schema set. -/
theorem getFarmOSInstance_authorizes_iff_token_null {ε τ σ : Type} (json : Json ε τ)
    (lib : Client ε σ) (hostURL client user pass : String) (w : World σ) :
    (∃ made,
      (getFarmOSInstance json lib hostURL client user pass w).2.calls = w.calls ++ made ∧
      (authorizeCount made = 1 ↔ getToken json w.env = .ok none) ∧
      (authorizeCount made = 0 ↔ getToken json w.env ≠ .ok none)) ∧
    (∀ token,
      getToken json (getFarmOSInstance json lib hostURL client user pass w).2.env =
        .ok (some token) →
      ∀ hostURL2 client2 user2 pass2 : String,
      ∃ made,
        (getFarmOSInstance json lib hostURL2 client2 user2 pass2
          (getFarmOSInstance json lib hostURL client user pass w).2).2.calls =
          (getFarmOSInstance json lib hostURL client user pass w).2.calls ++ made ∧
        authorizeCount made = 0 ∧ schemaFetchCount made = 1 ∧
        (∀ schemata env2,
          lib.schemaFetch { host := hostURL2, clientId := client2 }
            (getFarmOSInstance json lib hostURL client user pass w).2.env = (.ok schemata, env2) →
          (getFarmOSInstance json lib hostURL2 client2 user2 pass2
            (getFarmOSInstance json lib hostURL client user pass w).2).1 =
            .ok { config := { host := hostURL2, clientId := client2 }, schema := some schemata } ∧
          made = [.schemaFetch, .schemaSet schemata])) := by
  constructor
  · obtain ⟨made, h1, h2⟩ := getFarmOSInstance_calls json lib hostURL client user pass w
    refine ⟨made, h1, ?_, ?_⟩
    · rw [h2]
      cases hg : getToken json w.env with
      | error e => simp
      | ok token => cases token <;> simp
    · rw [h2]
      cases hg : getToken json w.env with
      | error e => simp
      | ok token => cases token <;> simp
  · intro token ht hostURL2 client2 user2 pass2
    rw [getFarmOSInstance_of_token json lib hostURL2 client2 user2 pass2 _ ht]
    rcases hs : lib.schemaFetch { host := hostURL2, clientId := client2 }
      (getFarmOSInstance json lib hostURL client user pass w).2.env with ⟨r, env2⟩
    cases r with
    | error e =>
      refine ⟨[.schemaFetch], rfl, by simp [authorizeCount, RemoteCall.isAuthorize],
        by simp [schemaFetchCount, RemoteCall.isSchemaFetch], ?_⟩
      intro schemata env3 h
      simp at h
    | ok schemata =>
      refine ⟨[.schemaFetch, .schemaSet schemata], rfl,
        by simp [authorizeCount, RemoteCall.isAuthorize],
        by simp [schemaFetchCount, RemoteCall.isSchemaFetch], ?_⟩
      intro schemata2 env3 h
      simp only [Prod.mk.injEq, Except.ok.injEq] at h
      obtain ⟨h1, _⟩ := h
      subst h1
      exact ⟨rfl, rfl⟩

/-- C7, exercised with `grantingClient` on `freshWorld`: the store is empty, so
the first call authorizes once and stores the token; the second call makes no
authorization request and fetches and sets the schema. -/
theorem getFarmOSInstance_authorizes_iff_token_null_witness :
    getToken textJson freshWorld.env = .ok none ∧
    (getFarmOSInstance textJson grantingClient "http://farmos" "farm" "admin" "admin"
      freshWorld).2.calls =
      [.authorize "admin" "admin", .schemaFetch, .schemaSet "schema-v2"] ∧
    ∃ made,
      (getFarmOSInstance textJson grantingClient "http://farmos" "farm" "admin" "admin"
        (getFarmOSInstance textJson grantingClient "http://farmos" "farm" "admin" "admin"
          freshWorld).2).2.calls =
        (getFarmOSInstance textJson grantingClient "http://farmos" "farm" "admin" "admin"
          freshWorld).2.calls ++ made ∧
      authorizeCount made = 0 ∧ schemaFetchCount made = 1 ∧
      made = [.schemaFetch, .schemaSet "schema-v2"] := by
  refine ⟨rfl, rfl, ?_⟩
  obtain ⟨made, h1, h2, h3, h4⟩ :=
    (getFarmOSInstance_authorizes_iff_token_null textJson grantingClient
      "http://farmos" "farm" "admin" "admin" freshWorld).2 "t0k3n" rfl
      "http://farmos" "farm" "admin" "admin"
  exact ⟨made, h1, h2, h3, (h4 "schema-v2" _ rfl).2⟩

end FarmosUtil
